import Mathlib

/-!
Verification of the pints repository's sample I/O module (`src/pints/io.py`)
and of the ask-tell rejection-ABC sampling protocol, against the repository's
specification.

The I/O functions are shallowly embedded over an explicit file-system model:
a file system is an association list from file names to textual contents, and
Python's text operations (`str.split`, `str.join`, line iteration, `str(int)`,
`os.path.splitext`) are modelled as executable character-level functions.
Python exceptions are modelled by `Option`/`Except`/error components.
-/

/-! ### Character-level models of the Python string primitives used by io.py -/

/-- Decimal digit characters, as produced by Python's `str` on a digit
value: code point 48 (`'0'`) plus the digit. -/
def digitCh (n : Nat) : Char :=
  Char.ofNat (48 + n % 10)

/-- Digit accumulator for `pyStrC`: peel decimal digits from the right.
`fuel` only bounds the recursion depth; `n + 1` digits always suffice for
`n`. -/
def pyStrCAux : Nat → Nat → List Char → List Char
  | 0, _, acc => acc
  | fuel + 1, n, acc =>
    if n < 10 then digitCh n :: acc
    else pyStrCAux fuel (n / 10) (digitCh (n % 10) :: acc)

/-- Decimal representation of a natural number as a character list, modelling
Python's `str(i)` for the non-negative integers used as file and column
indices in io.py. -/
def pyStrC (n : Nat) : List Char :=
  pyStrCAux (n + 1) n []

/-- Decimal representation of a natural number, modelling Python `str(i)`. -/
def pyStr (n : Nat) : String := ⟨pyStrC n⟩

/-- Split a character list at every occurrence of `c`, modelling Python's
`str.split(sep)` for a one-character separator: `"a,b".split(',') = ["a","b"]`,
`"".split(',') = [""]`. Always returns a non-empty list. -/
def splitChar (c : Char) : List Char → List (List Char)
  | [] => [[]]
  | x :: xs =>
    match splitChar c xs with
    | [] => [[]]
    | y :: ys => if x = c then [] :: y :: ys else (x :: y) :: ys

/-- Join character lists with a separator, modelling Python's `sep.join(parts)`. -/
def joinSepC (sep : List Char) : List (List Char) → List Char
  | [] => []
  | [x] => x
  | x :: y :: ys => x ++ sep ++ joinSepC sep (y :: ys)

/-- Python's `sep.join(parts)` on strings. -/
def joinSep (sep : String) (parts : List String) : String :=
  ⟨joinSepC sep.data (parts.map String.data)⟩

/-- Python's `s.split(c)` for a one-character separator, on strings. -/
def pySplit (c : Char) (s : String) : List String :=
  (splitChar c s.data).map fun l => ⟨l⟩

/-- Turn the pieces produced by splitting on a newline into Python's file-line
iteration: every line but the last keeps its trailing newline, and a trailing
newline in the file produces no extra empty line. -/
def pyLinesAux : List (List Char) → List (List Char)
  | [] => []
  | [l] => if l.isEmpty then [] else [l]
  | l :: l' :: ls => (l ++ ['\n']) :: pyLinesAux (l' :: ls)

/-- Python's iteration over the lines of a text file with contents `s`. -/
def pyLines (s : String) : List String :=
  (pyLinesAux (splitChar '\n' s.data)).map fun l => ⟨l⟩

/-- Index of the last occurrence of `c` in `l`, or `-1` if absent, modelling
Python's `str.rfind`. -/
def rfindIdx (c : Char) (l : List Char) : Int :=
  match l.reverse.indexOf? c with
  | none => -1
  | some i => ((l.length - 1 - i : Nat) : Int)

/-- Model of `os.path.splitext`: split a path into root and extension at the
last dot of its final component, where leading dots of the component do not
start an extension. -/
def splitext (p : String) : String × String :=
  let l := p.data
  let sepIndex := rfindIdx '/' l
  let dotIndex := rfindIdx '.' l
  if sepIndex < dotIndex then
    let start := (sepIndex + 1).toNat
    let dotN := dotIndex.toNat
    if ((l.drop start).take (dotN - start)).any (fun c => c ≠ '.') then
      (⟨l.take dotN⟩, ⟨l.drop dotN⟩)
    else (p, "")
  else (p, "")

/-- Shape of a list of rows as `numpy.asarray` reports it: `[]` is 1-d of
length 0, a rectangular list of `m` rows of width `d` is 2-d `[m, d]`, and a
ragged list of `m` rows is a 1-d object array `[m]`. -/
def npShape {α : Type} (s : List (List α)) : List Nat :=
  match s with
  | [] => [0]
  | r :: rs =>
    if rs.all (fun x => x.length == r.length) then [s.length, r.length]
    else [s.length]

/-- A Python list comprehension whose element expression may raise: evaluates
left to right and fails as a whole at the first failing element. -/
def mapOrFail {β γ : Type} (f : β → Option γ) : List β → Option (List γ)
  | [] => some []
  | b :: bs =>
    match f b, mapOrFail f bs with
    | some v, some vs => some (v :: vs)
    | _, _ => none

/-- Sequential effectful map in the exception monad, modelling a Python list
comprehension whose element expression may raise an exception. -/
def mapExcept {β γ : Type} (f : β → Except String γ) : List β → Except String (List γ)
  | [] => .ok []
  | b :: bs =>
    match f b with
    | .error e => .error e
    | .ok v =>
      match mapExcept f bs with
      | .error e => .error e
      | .ok vs => .ok (v :: vs)

/-! ### The file-system model -/

/-- A file system: an association list from file names to textual contents.
Writing a file prepends; lookup finds the most recent write. -/
abbrev FS := List (String × String)

/-- Contents of a file, or `none` when the file does not exist
(Python `open` raising `FileNotFoundError`). -/
def readFile (fs : FS) (name : String) : Option String :=
  fs.lookup name

/-- Model of `os.path.isfile`. -/
def isfile (fs : FS) (name : String) : Bool :=
  (readFile fs name).isSome

/-- Model of `open(name, 'w')` followed by writing `content`. -/
def writeFile (fs : FS) (name content : String) : FS :=
  (name, content) :: fs

/-! ### save_samples (src/pints/io.py lines 65-107) -/

/-- The header line written by `save_samples`:
`','.join(['"p' + str(j) + '"' for j in range(d)])`. -/
def headerC (d : Nat) : List Char :=
  joinSepC [','] ((List.range d).map fun j => '"' :: 'p' :: (pyStrC j ++ ['"']))

/-- One data row written by `save_samples`:
`','.join([pints.strfloat(x) for x in sample])`.  The float formatter
`fmt` stands for `pints.strfloat` (fixed textual precision). -/
def rowC {α : Type} (fmt : α → String) (sample : List α) : List Char :=
  joinSepC [','] (sample.map fun x => (fmt x).data)

/-- Full contents written for one sample set: the header line then one line
per sample, each line terminated by a newline. -/
def fileContentC {α : Type} (fmt : α → String) (d : Nat) (samples : List (List α)) :
    List Char :=
  headerC d ++ '\n' :: (samples.map fun sample => rowC fmt sample ++ ['\n']).flatten

/-- String form of `fileContentC`. -/
def fileContent {α : Type} (fmt : α → String) (d : Nat) (samples : List (List α)) :
    String :=
  ⟨fileContentC fmt d samples⟩

/-- The file names `save_samples` writes to: the name itself for one sample
set, otherwise the name with suffixes `_0`, ..., `_(k-1)` before the
extension. -/
def savedFilenames (filename : String) (k : Nat) : List String :=
  if k = 1 then [filename]
  else
    let parts := splitext filename
    (List.range k).map fun i => parts.1 ++ "_" ++ pyStr i ++ parts.2

/-- Shallow embedding of `pints.io.save_samples`.  `fmt` stands for
`pints.strfloat`.  Returns the file system after the call together with
`none` on success or `some message` when the call raises a `ValueError`;
an error is raised before any file is written, so the error cases return
the file system unchanged, exactly as the code checks before its write
loop. -/
def save_samples {α : Type} (fmt : α → String) (filename : String)
    (sampleLists : List (List (List α))) (fs : FS) : FS × Option String :=
  match sampleLists with
  | [] => (fs, some "At least one set of samples must be given.")
  | first :: rest =>
    let k := rest.length + 1
    let filenames := savedFilenames filename k
    let shape := npShape first
    if shape.length ≠ 2 then
      (fs, some "Samples must be given as 2d arrays (e.g. lists of lists).")
    else if rest.any (fun samples => npShape samples != shape) then
      (fs, some "All sample lists must have same shape.")
    else
      let d := shape.getD 1 0
      let fs' := ((first :: rest).zip filenames).foldl
        (fun acc sf => writeFile acc sf.2 (fileContent fmt d sf.1)) fs
      (fs', none)

/-! ### load_samples (src/pints/io.py lines 17-62) -/

/-- The inner `load` closure of `load_samples`: open the file, skip the
header line, and parse every remaining line as comma-separated floats.
`pyFloat` stands for Python's `float` applied to a token (which may still
carry the line's trailing newline); `none` models a raised `ValueError`. -/
def loadOne {α : Type} (pyFloat : String → Option α) (fs : FS) (filename : String) :
    Except String (List (List α)) :=
  match readFile fs filename with
  | none => .error ("No such file or directory: " ++ filename)
  | some content =>
    match pyLines content with
    | [] => .error "StopIteration"
    | _header :: rest =>
      match mapOrFail (fun line => mapOrFail pyFloat (pySplit ',' line)) rest with
      | none => .error "ValueError: could not convert string to float"
      | some rows => .ok rows

/-- Shallow embedding of `pints.io.load_samples` with `n = None`: load a
single file directly. -/
def load_samples {α : Type} (pyFloat : String → Option α) (fs : FS)
    (filename : String) : Except String (List (List α)) :=
  loadOne pyFloat fs filename

/-- Shallow embedding of `pints.io.load_samples` with an integer argument
`n` (the value of Python's `int(n)`): validate `n`, construct the indexed
file names, check that every file exists before opening any, then load each
file in order. -/
def load_samples_n {α : Type} (pyFloat : String → Option α) (fs : FS)
    (filename : String) (n : Int) : Except String (List (List (List α))) :=
  if n < 1 then
    .error "Argument `n` must be `None` or an integer greater than zero."
  else
    let parts := splitext filename
    let filenames := (List.range n.toNat).map fun i =>
      parts.1 ++ "_" ++ pyStr i ++ parts.2
    match filenames.find? (fun fn => !(isfile fs fn)) with
    | some fn => .error ("File not found: " ++ fn)
    | none => mapExcept (loadOne pyFloat fs) filenames

/-! ### The ask-tell protocol and the rejection-ABC sampler

Modelled from the spec: the `RejectionABC` sampler and the shared ask-tell
ordering contract (spec sections 4.1 and 4.2) are exercised by
`src/pints/tests/test_abc_rejection.py`, but their implementation is not
part of the source tree, so the state machine below follows the spec's
words. -/

/-- Modelled from the spec: the two phases of the ask-tell call-ordering
state machine of section 4.1 (`AwaitingAsk` initial, `AwaitingTell` after a
successful `ask`). -/
inductive AskTellPhase : Type
  | awaitingAsk : AskTellPhase
  | awaitingTell : AskTellPhase
deriving DecidableEq

/-- The ordering error raised when `ask` is called twice without an
intervening `tell` (a `RuntimeError`); the message is shared by every
algorithm implementing the protocol. -/
def askOrderError : String :=
  "RuntimeError: ask called twice without an intervening tell"

/-- The ordering error raised when `tell` is called before any `ask`
(a `RuntimeError`). -/
def tellOrderError : String :=
  "RuntimeError: tell called before ask"

/-- The validation error raised by `set_threshold` on a non-positive value. -/
def thresholdError : String :=
  "ValueError: Threshold must be greater than zero."

/-- Modelled from the spec: the shared phase transition performed by `ask`
(section 4.1) — legal only in the awaiting-ask phase, independently of the
algorithm. -/
def askTransition : AskTellPhase → Except String AskTellPhase
  | .awaitingAsk => .ok .awaitingTell
  | .awaitingTell => .error askOrderError

/-- Modelled from the spec: the shared phase transition performed by `tell`
(section 4.1) — legal only in the awaiting-tell phase, independently of the
algorithm. -/
def tellTransition : AskTellPhase → Except String AskTellPhase
  | .awaitingTell => .ok .awaitingAsk
  | .awaitingAsk => .error tellOrderError

/-- Modelled from the spec: the state of a `RejectionABC` sampler
(section 4.2): a strictly positive scalar acceptance `threshold`
(default 1) and the pending candidate batch recorded by the last `ask`
(`none` exactly in the awaiting-ask phase).  Scalars are rationals;
parameter vectors are lists of rationals. -/
structure RejectionABC : Type where
  threshold : Rat
  pending : Option (List (List Rat))
deriving DecidableEq

/-- A freshly constructed sampler: default threshold 1, awaiting its
first `ask`. -/
def RejectionABC.init : RejectionABC := ⟨1, none⟩

/-- The call phase a sampler state is in: awaiting-tell exactly while a
pending batch is recorded. -/
def RejectionABC.phase (s : RejectionABC) : AskTellPhase :=
  if s.pending.isSome then .awaitingTell else .awaitingAsk

/-- Modelled from the spec: `RejectionABC.ask(n)` (section 4.2) — goes
through the shared ordering transition, then draws `n` vectors from the
prior (injected as `prior`, mapping a draw index to a vector), records them
as the pending batch and returns them. -/
def RejectionABC.ask (s : RejectionABC) (n : Nat) (prior : Nat → List Rat) :
    Except String (List (List Rat) × RejectionABC) :=
  match askTransition s.phase with
  | .error e => .error e
  | .ok _ =>
    let draws := (List.range n).map prior
    .ok (draws, ⟨s.threshold, some draws⟩)

/-- Modelled from the spec: `RejectionABC.tell(value)` (section 4.2) —
goes through the shared ordering transition; accepts exactly one scalar for
a pending batch of one candidate; clears the pending batch in every case;
returns the drawn vector when the value is at most the threshold and
nothing otherwise.  A scalar for a batch of any other size is an arity
error (section 4.1). -/
def RejectionABC.tell (s : RejectionABC) (v : Rat) :
    Except String (Option (List Rat) × RejectionABC) :=
  match tellTransition s.phase with
  | .error e => .error e
  | .ok _ =>
    match s.pending with
    | none => .error tellOrderError
    | some [x] =>
      .ok (if v ≤ s.threshold then some x else none, ⟨s.threshold, none⟩)
    | some _ => .error "values arity does not match the pending batch size"

/-- Modelled from the spec: `set_threshold(t)` (section 4.2) — rejects any
non-positive value with a validation error (leaving the state, hence the
observable threshold, unchanged: no new state is produced), otherwise
records the new threshold. -/
def RejectionABC.set_threshold (s : RejectionABC) (t : Rat) :
    Except String RejectionABC :=
  if t ≤ 0 then .error thresholdError
  else .ok ⟨t, s.pending⟩

/-- Modelled from the spec: the fixed identifying label returned by
`name()`. -/
def RejectionABC.algoName (_s : RejectionABC) : String := "Rejection ABC"

/-! ### Concrete formatter and parser instances used to evaluate the model

These stand in for `pints.strfloat` and Python's `float` when the theorems
below are evaluated at concrete inputs: natural numbers formatted as their
decimal digits, parsed back while ignoring surrounding whitespace, with the
empty token rejected exactly as `float('')`/`float('\n')` raise
`ValueError`. -/

/-- Value of a decimal digit character, `none` on any other character. -/
def digitValC (c : Char) : Option Nat :=
  if '0' ≤ c ∧ c ≤ '9' then some (c.toNat - 48) else none

/-- A concrete model of Python's `float` restricted to the tokens produced
by formatting natural numbers: strips whitespace, rejects an empty or
non-digit token, and reads the decimal digits. -/
def parseNatTest (s : String) : Option Nat :=
  let l := s.data.filter fun c => !(c == '\n' || c == ' ')
  if l.isEmpty then none
  else
    l.foldl
      (fun acc c =>
        match acc, digitValC c with
        | some a, some v => some (10 * a + v)
        | _, _ => none)
      (some 0)

/-! ### Lemmas about the character-level string model -/

theorem splitChar_ne_nil (c : Char) (l : List Char) : splitChar c l ≠ [] := by
  induction l with
  | nil => simp [splitChar]
  | cons x xs ih =>
    simp only [splitChar]
    cases h : splitChar c xs with
    | nil => simp
    | cons y ys =>
      by_cases hx : x = c <;> simp [hx]

theorem splitChar_of_not_mem {c : Char} {l : List Char} (h : c ∉ l) :
    splitChar c l = [l] := by
  induction l with
  | nil => rfl
  | cons x xs ih =>
    simp only [List.mem_cons, not_or] at h
    have hxc : x ≠ c := fun he => h.1 he.symm
    simp only [splitChar, ih h.2]
    simp [hxc]

theorem splitChar_append {c : Char} {l : List Char} (r : List Char) (h : c ∉ l) :
    splitChar c (l ++ c :: r) = l :: splitChar c r := by
  induction l with
  | nil =>
    simp only [List.nil_append, splitChar]
    cases hr : splitChar c r with
    | nil => exact absurd hr (splitChar_ne_nil c r)
    | cons y ys => simp
  | cons x xs ih =>
    simp only [List.mem_cons, not_or] at h
    have hxc : x ≠ c := fun he => h.1 he.symm
    simp only [List.cons_append, splitChar, ih h.2]
    simp only [hxc, if_false, reduceIte, List.append_eq]
    rw [ih h.2]

theorem mem_joinSepC {c : Char} {sep : List Char} {L : List (List Char)}
    (h : c ∈ joinSepC sep L) : c ∈ sep ∨ ∃ p ∈ L, c ∈ p := by
  induction L with
  | nil => simp [joinSepC] at h
  | cons x ys ih =>
    cases ys with
    | nil =>
      simp only [joinSepC] at h
      exact Or.inr ⟨x, by simp, h⟩
    | cons y ys' =>
      simp only [joinSepC, List.append_assoc, List.mem_append] at h
      rcases h with hx | hs | hr
      · exact Or.inr ⟨x, by simp, hx⟩
      · exact Or.inl hs
      · rcases ih hr with hsep | ⟨p, hp, hcp⟩
        · exact Or.inl hsep
        · exact Or.inr ⟨p, List.mem_cons_of_mem _ hp, hcp⟩

theorem splitChar_joinSepC {c : Char} {L : List (List Char)}
    (h : ∀ p ∈ L, c ∉ p) (hL : L ≠ []) :
    splitChar c (joinSepC [c] L) = L := by
  induction L with
  | nil => exact absurd rfl hL
  | cons x ys ih =>
    cases ys with
    | nil => exact splitChar_of_not_mem (h x (by simp))
    | cons y ys' =>
      have hx : c ∉ x := h x (by simp)
      simp only [joinSepC]
      rw [List.append_assoc, List.singleton_append, splitChar_append _ hx,
        ih (fun p hp => h p (List.mem_cons_of_mem _ hp)) (by simp)]

theorem splitChar_joinSepC_append {c : Char} {L : List (List Char)} {e : List Char}
    (h : ∀ p ∈ L, c ∉ p) (he : c ∉ e) (hL : L ≠ []) :
    splitChar c (joinSepC [c] L ++ e) =
      L.dropLast ++ [L.getLast hL ++ e] := by
  induction L with
  | nil => exact absurd rfl hL
  | cons x ys ih =>
    cases ys with
    | nil =>
      have hx : c ∉ x := h x (by simp)
      simp only [joinSepC, List.getLast_singleton, List.dropLast_single,
        List.nil_append]
      exact splitChar_of_not_mem (by
        simp only [List.mem_append, not_or]
        exact ⟨hx, he⟩)
    | cons y ys' =>
      have hx : c ∉ x := h x (by simp)
      simp only [joinSepC]
      rw [List.append_assoc, List.append_assoc, List.singleton_append,
        splitChar_append _ hx,
        ih (fun p hp => h p (List.mem_cons_of_mem _ hp)) (by simp)]
      simp

theorem pyLinesAux_header_rows (hd : List Char) (rs : List (List Char)) :
    pyLinesAux (hd :: rs ++ [[]]) =
      (hd ++ ['\n']) :: rs.map (fun r => r ++ ['\n']) := by
  induction rs generalizing hd with
  | nil => rfl
  | cons r rs' ih =>
    have h2 := ih r
    simp only [List.cons_append] at h2
    simp only [List.cons_append, pyLinesAux, List.map_cons, List.append_eq, h2]

theorem digitCh_ne (k : Nat) :
    digitCh k ≠ ',' ∧ digitCh k ≠ '\n' ∧ digitCh k ≠ '"' ∧ digitCh k ≠ '_' := by
  unfold digitCh
  set m := k % 10 with hm
  have h : m < 10 := Nat.mod_lt _ (by omega)
  interval_cases m <;>
    exact ⟨by decide, by decide, by decide, by decide⟩

theorem pyStrCAux_digits (fuel : Nat) :
    ∀ (n : Nat) (acc : List Char), (∀ c ∈ acc, ∃ k, c = digitCh k) →
      ∀ c ∈ pyStrCAux fuel n acc, ∃ k, c = digitCh k := by
  induction fuel with
  | zero => intro n acc hacc c hc; exact hacc c hc
  | succ fuel ih =>
    intro n acc hacc c hc
    rw [pyStrCAux] at hc
    split at hc
    · rcases List.mem_cons.mp hc with hc | hc
      · exact ⟨n, hc⟩
      · exact hacc c hc
    · refine ih (n / 10) _ ?_ c hc
      intro x hx
      rcases List.mem_cons.mp hx with hx | hx
      · exact ⟨n % 10, hx⟩
      · exact hacc x hx

theorem pyStrC_digits (n : Nat) : ∀ c ∈ pyStrC n, ∃ k, c = digitCh k :=
  pyStrCAux_digits (n + 1) n [] (by simp)

theorem not_mem_pyStrC (n : Nat) {c : Char}
    (h : c = ',' ∨ c = '\n' ∨ c = '"' ∨ c = '_') : c ∉ pyStrC n := by
  intro hc
  obtain ⟨k, hk⟩ := pyStrC_digits n c hc
  have := digitCh_ne k
  rcases h with h | h | h | h <;> rw [h] at hk <;> simp [hk.symm] at this

theorem not_mem_headerC (d : Nat) : '\n' ∉ headerC d := by
  intro hc
  rcases mem_joinSepC hc with hsep | ⟨p, hp, hcp⟩
  · simp at hsep
  · simp only [List.mem_map, List.mem_range] at hp
    obtain ⟨j, _, hj⟩ := hp
    rw [← hj] at hcp
    simp only [List.mem_cons] at hcp
    rcases hcp with h | h | h
    · exact absurd h (by decide)
    · exact absurd h (by decide)
    · rw [List.mem_append] at h
      rcases h with h | h
      · exact not_mem_pyStrC j (Or.inr (Or.inl rfl)) h
      · simp at h

theorem not_mem_rowC {α : Type} {fmt : α → String} {sample : List α} {c : Char}
    (h : ∀ x ∈ sample, c ∉ (fmt x).data) (hc : c ≠ ',') : c ∉ rowC fmt sample := by
  intro hmem
  rcases mem_joinSepC hmem with hsep | ⟨p, hp, hcp⟩
  · simp only [List.mem_singleton] at hsep
    exact hc hsep
  · simp only [List.mem_map] at hp
    obtain ⟨x, hx, hpx⟩ := hp
    exact h x hx (hpx ▸ hcp)

theorem npShape_eq_two {α : Type} {s : List (List α)} {m d : Nat}
    (h : npShape s = [m, d]) :
    s.length = m ∧ s ≠ [] ∧ ∀ r ∈ s, r.length = d := by
  match s with
  | [] => simp [npShape] at h
  | r :: rs =>
    simp only [npShape] at h
    split at h
    · next hall =>
      simp only [List.cons.injEq] at h
      refine ⟨h.1, by simp, ?_⟩
      intro x hx
      rcases List.mem_cons.mp hx with hx | hx
      · rw [hx, h.2.1]
      · simp only [List.all_eq_true, beq_iff_eq] at hall
        rw [hall x hx, h.2.1]
    · simp at h

theorem mapOrFail_eq_some {β γ : Type} {f : β → Option γ} {g : β → γ}
    {l : List β} (h : ∀ b ∈ l, f b = some (g b)) :
    mapOrFail f l = some (l.map g) := by
  induction l with
  | nil => rfl
  | cons b bs ih =>
    simp only [mapOrFail, h b (by simp),
      ih (fun x hx => h x (List.mem_cons_of_mem _ hx)), List.map_cons]

theorem foldl_writeFile {α : Type} (content : List (List α) → String)
    (l : List (List (List α) × String)) (fs : FS) :
    l.foldl (fun acc sf => writeFile acc sf.2 (content sf.1)) fs =
      (l.map fun sf => (sf.2, content sf.1)).reverse ++ fs := by
  induction l generalizing fs with
  | nil => rfl
  | cons p ps ih =>
    simp only [List.foldl_cons, ih, List.map_cons, List.reverse_cons,
      List.append_assoc, List.singleton_append]
    rfl

theorem splitChar_terminated {c : Char} {hd : List Char} {rs : List (List Char)}
    (hh : c ∉ hd) (hr : ∀ r ∈ rs, c ∉ r) :
    splitChar c (hd ++ c :: (rs.map fun r => r ++ [c]).flatten) =
      hd :: rs ++ [[]] := by
  rw [splitChar_append _ hh]
  congr 1
  induction rs with
  | nil => rfl
  | cons r rs' ih =>
    simp only [List.map_cons, List.flatten_cons, List.append_assoc,
      List.singleton_append]
    rw [splitChar_append _ (hr r (by simp)),
      ih fun x hx => hr x (List.mem_cons_of_mem _ hx)]
    rfl

theorem mapOrFail_map_eq {β γ δ : Type} {f : β → Option γ} {h : δ → β}
    {g : δ → γ} {l : List δ} (H : ∀ x ∈ l, f (h x) = some (g x)) :
    mapOrFail f (l.map h) = some (l.map g) := by
  induction l with
  | nil => rfl
  | cons b bs ih =>
    simp only [List.map_cons, mapOrFail, H b (by simp),
      ih fun x hx => H x (List.mem_cons_of_mem _ hx)]

theorem row_tokens_parse {α : Type} {fmt : α → String} {pyFloat : String → Option α}
    {g : α → α} {row : List α} (hrow : row ≠ [])
    (hg : ∀ x ∈ row, pyFloat (fmt x) = some (g x) ∧
      pyFloat (fmt x ++ "\n") = some (g x)) :
    mapOrFail pyFloat
      ((row.dropLast.map fmt) ++ [fmt (row.getLast hrow) ++ "\n"]) =
      some (row.map g) := by
  induction row with
  | nil => exact absurd rfl hrow
  | cons x row' ih =>
    cases row' with
    | nil =>
      simp only [List.dropLast_single, List.map_nil, List.nil_append,
        List.getLast_singleton, mapOrFail, (hg x (by simp)).2, List.map_cons,
        List.map_nil]
    | cons y row'' =>
      have hne : y :: row'' ≠ [] := by simp
      simp only [List.dropLast_cons₂, List.map_cons, List.cons_append,
        mapOrFail, (hg x (by simp)).1,
        List.getLast_cons hne, List.append_eq,
        ih hne fun z hz => hg z (List.mem_cons_of_mem _ hz)]

theorem pySplit_row_line {α : Type} {fmt : α → String} {row : List α}
    (hrow : row ≠ []) (hfmt : ∀ x ∈ row, ',' ∉ (fmt x).data) :
    pySplit ',' ⟨rowC fmt row ++ ['\n']⟩ =
      row.dropLast.map fmt ++ [fmt (row.getLast hrow) ++ "\n"] := by
  have hL : row.map (fun x => (fmt x).data) ≠ [] := by simp [hrow]
  unfold pySplit rowC
  rw [show (String.mk (joinSepC [','] (row.map fun x => (fmt x).data) ++ ['\n'])).data
        = joinSepC [','] (row.map fun x => (fmt x).data) ++ ['\n'] from rfl,
    splitChar_joinSepC_append
      (by
        intro p hp
        simp only [List.mem_map] at hp
        obtain ⟨x, hx, hpx⟩ := hp
        exact hpx ▸ hfmt x hx)
      (by decide) hL]
  rw [List.map_append, ← List.map_dropLast, List.map_map, List.map_singleton]
  congr 1
  rw [List.getLast_map]
  rfl

theorem readFile_writeFile (fs : FS) (name content : String) :
    readFile (writeFile fs name content) name = some content := by
  simp [readFile, writeFile, List.lookup]

theorem save_samples_single {α : Type} (fmt : α → String) (filename : String)
    (samples : List (List α)) (fs : FS) {m d : Nat}
    (hshape : npShape samples = [m, d]) :
    save_samples fmt filename [samples] fs =
      ((filename, fileContent fmt d samples) :: fs, none) := by
  obtain ⟨hm, hne, hrows⟩ := npShape_eq_two hshape
  simp [save_samples, hshape, savedFilenames, writeFile, fileContent]

theorem loadOne_fileContent {α : Type} (pyFloat : String → Option α)
    (fmt : α → String) (g : α → α) {samples : List (List α)} {d : Nat}
    (fs : FS) (filename : String) (hd : 1 ≤ d)
    (hrows : ∀ row ∈ samples, row.length = d)
    (hfmt : ∀ row ∈ samples, ∀ x ∈ row, ',' ∉ (fmt x).data ∧ '\n' ∉ (fmt x).data)
    (hg : ∀ row ∈ samples, ∀ x ∈ row, pyFloat (fmt x) = some (g x) ∧
      pyFloat (fmt x ++ "\n") = some (g x))
    (hread : readFile fs filename = some (fileContent fmt d samples)) :
    loadOne pyFloat fs filename = .ok (samples.map fun row => row.map g) := by
  have hlines : pyLines (fileContent fmt d samples) =
      (⟨headerC d ++ ['\n']⟩ : String) ::
        samples.map (fun row => (⟨rowC fmt row ++ ['\n']⟩ : String)) := by
    unfold pyLines fileContent
    rw [show (String.mk (fileContentC fmt d samples)).data
          = fileContentC fmt d samples from rfl]
    unfold fileContentC
    rw [show (samples.map fun s => rowC fmt s ++ ['\n'])
          = (samples.map (rowC fmt)).map (fun r => r ++ ['\n']) by
        rw [List.map_map]; rfl,
      splitChar_terminated (not_mem_headerC d)
        (by
          intro r hr
          simp only [List.mem_map] at hr
          obtain ⟨row, hrowmem, hrow⟩ := hr
          exact hrow ▸ not_mem_rowC
            (fun x hx => (hfmt row hrowmem x hx).2) (by decide)),
      pyLinesAux_header_rows]
    simp [List.map_map]
  have hparse : mapOrFail (fun line => mapOrFail pyFloat (pySplit ',' line))
      (samples.map fun row => (⟨rowC fmt row ++ ['\n']⟩ : String)) =
      some (samples.map fun row => row.map g) := by
    apply mapOrFail_map_eq
    intro row hrowmem
    have hne : row ≠ [] := by
      intro h
      have := hrows row hrowmem
      rw [h] at this
      simp at this
      omega
    rw [pySplit_row_line hne fun x hx => (hfmt row hrowmem x hx).1]
    exact row_tokens_parse hne (hg row hrowmem)
  unfold loadOne
  simp only [hread, hlines, hparse]

/-! ### Claim theorems: sample I/O -/

/-- Claim C5 (amended: the sample vectors must be non-empty, `d ≥ 1`, and
there must be at least one sample, which `npShape samples = [m, d]` already
forces).  For a 2-dimensional set of sample vectors of shape `(m, d)` with
`d ≥ 1`, calling `save_samples` on a filename and then `load_samples` on the
same filename (which skips the one header line) returns an array of shape
`(m, d)` whose entries equal the saved values to the fixed textual precision
used when writing: `g`, the parse-after-format map of the `pints.strfloat`
formatter `fmt` and the Python `float` parser `pyFloat`. -/
theorem save_then_load_roundtrip {α : Type} (fmt : α → String)
    (pyFloat : String → Option α) (g : α → α) (samples : List (List α))
    (m d : Nat) (filename : String) (fs : FS)
    (hshape : npShape samples = [m, d]) (hd : 1 ≤ d)
    (hfmt : ∀ row ∈ samples, ∀ x ∈ row, ',' ∉ (fmt x).data ∧ '\n' ∉ (fmt x).data)
    (hg : ∀ row ∈ samples, ∀ x ∈ row, pyFloat (fmt x) = some (g x) ∧
      pyFloat (fmt x ++ "\n") = some (g x)) :
    ∃ fs', save_samples fmt filename [samples] fs = (fs', none) ∧
      load_samples pyFloat fs' filename =
        .ok (samples.map fun row => row.map g) ∧
      (samples.map fun row => row.map g).length = m ∧
      ∀ r ∈ samples.map fun row => row.map g, r.length = d := by
  obtain ⟨hm, hne, hrows⟩ := npShape_eq_two hshape
  refine ⟨(filename, fileContent fmt d samples) :: fs, ?_, ?_, ?_, ?_⟩
  · exact save_samples_single fmt filename samples fs hshape
  · exact loadOne_fileContent pyFloat fmt g _ filename hd hrows hfmt hg
      (readFile_writeFile fs filename _)
  · simpa using hm
  · intro r hr
    simp only [List.mem_map] at hr
    obtain ⟨row, hrow, hrr⟩ := hr
    rw [← hrr]
    simpa using hrows row hrow

/-- Evaluation of `save_then_load_roundtrip` at a concrete input: one set of
one sample of two natural numbers, formatted with `pyStr` and parsed with
`parseNatTest`. -/
theorem save_then_load_roundtrip_witness :
    ∃ fs', save_samples pyStr "test.csv" [[[3, 14]]] [] = (fs', none) ∧
      load_samples parseNatTest fs' "test.csv" =
        .ok ([[3, 14]].map fun row => row.map (id : Nat → Nat)) ∧
      ([[3, 14]].map fun row => row.map (id : Nat → Nat)).length = 1 ∧
      ∀ r ∈ [[3, 14]].map fun row => row.map (id : Nat → Nat), r.length = 2 :=
  save_then_load_roundtrip pyStr parseNatTest id [[3, 14]] 1 2 "test.csv" []
    (by decide) (by decide) (by decide) (by decide)

/-- Counterexample to claim C5 as stated: the set `[[], []]` of two empty
sample vectors is 2-dimensional of shape `(2, 0)` and saves successfully
(writing a file holding only newlines), but loading the written file fails
— each data line parses to the single empty token, which Python's `float`
rejects — instead of returning an array of shape `(2, 0)`.  Moreover an
empty sample set of shape `(0, d)` cannot even be saved: `numpy` reports it
as 1-dimensional. -/
theorem save_then_load_roundtrip_cex :
    save_samples pyStr "test.csv" [[([] : List Nat), []]] [] =
        ([("test.csv", "\n\n\n")], none) ∧
      load_samples parseNatTest [("test.csv", "\n\n\n")] "test.csv" =
        .error "ValueError: could not convert string to float" ∧
      save_samples pyStr "test.csv" [([] : List (List Nat))] [] =
        ([], some "Samples must be given as 2d arrays (e.g. lists of lists).") :=
  ⟨rfl, rfl, rfl⟩

/-- Claim C8: calling `save_samples` with zero sample sets always fails with
a validation error and writes no file (the returned file system is the one
passed in, unchanged). -/
theorem save_samples_no_sets {α : Type} (fmt : α → String) (filename : String)
    (fs : FS) :
    save_samples fmt filename ([] : List (List (List α))) fs =
      (fs, some "At least one set of samples must be given.") := rfl

/-- Claim C10: calling `load_samples` with an integer argument whose value
`int(n)` is below one fails with a validation error, for every file system
and parser — no filename is constructed and no file is checked or opened. -/
theorem load_samples_n_nonpositive {α : Type} (pyFloat : String → Option α)
    (fs : FS) (filename : String) (n : Int) (hn : n < 1) :
    load_samples_n pyFloat fs filename n =
      .error "Argument `n` must be `None` or an integer greater than zero." := by
  simp [load_samples_n, hn]

/-- Evaluation of `load_samples_n_nonpositive` at `n = 0` on an empty file
system. -/
theorem load_samples_n_nonpositive_witness :
    load_samples_n parseNatTest [] "test.csv" 0 =
      .error "Argument `n` must be `None` or an integer greater than zero." :=
  load_samples_n_nonpositive parseNatTest [] "test.csv" 0 (by decide)

/-- Claim C6: when `save_samples` is called with two or more sample sets
and any two of them have differing (numpy) shapes, the call fails with a
validation error and the file system is returned unchanged — no file is
created or written. -/
theorem save_samples_mismatched_shapes {α : Type} (fmt : α → String)
    (filename : String) (sampleLists : List (List (List α))) (fs : FS)
    (hk : 2 ≤ sampleLists.length)
    (hmm : ∃ s₁ ∈ sampleLists, ∃ s₂ ∈ sampleLists, npShape s₁ ≠ npShape s₂) :
    ∃ msg, save_samples fmt filename sampleLists fs = (fs, some msg) ∧
      (msg = "Samples must be given as 2d arrays (e.g. lists of lists)." ∨
        msg = "All sample lists must have same shape.") := by
  rcases sampleLists with _ | ⟨first, rest⟩
  · simp at hk
  · by_cases h2 : (npShape first).length = 2
    · have hany : rest.any (fun samples => npShape samples != npShape first)
          = true := by
        by_contra hf
        simp only [List.any_eq_true, bne_iff_ne, ne_eq, not_exists, not_and,
          not_not] at hf
        obtain ⟨s₁, hs₁, s₂, hs₂, hne⟩ := hmm
        have e : ∀ s ∈ first :: rest, npShape s = npShape first := by
          intro s hs
          rcases List.mem_cons.mp hs with h | h
          · rw [h]
          · exact hf s h
        exact hne ((e s₁ hs₁).trans (e s₂ hs₂).symm)
      refine ⟨_, ?_, Or.inr rfl⟩
      simp only [save_samples]
      rw [if_neg (by simp [h2]), if_pos hany]
    · refine ⟨_, ?_, Or.inl rfl⟩
      simp only [save_samples]
      rw [if_pos h2]

/-- Evaluation of `save_samples_mismatched_shapes` on two sets of shapes
`(1, 1)` and `(2, 1)`. -/
theorem save_samples_mismatched_shapes_witness :
    ∃ msg, save_samples pyStr "test.csv" [[[1]], [[1], [2]]] [] = ([], some msg) ∧
      (msg = "Samples must be given as 2d arrays (e.g. lists of lists)." ∨
        msg = "All sample lists must have same shape.") :=
  save_samples_mismatched_shapes pyStr "test.csv" [[[1]], [[1], [2]]] []
    (by decide)
    ⟨[[1]], by decide, [[1], [2]], by decide, by decide⟩

theorem find?_ext {β : Type} {p q : β → Bool} (h : ∀ b, p b = q b)
    (l : List β) : l.find? p = l.find? q := by
  induction l with
  | nil => rfl
  | cons x xs ih =>
    rw [List.find?_cons, List.find?_cons, h x, ih]

/-- Claim C7: when `load_samples` is called with an integer `n ≥ 1` and any
of the `n` expected indexed files is missing, the call fails with a
not-found error; the outcome is the same for every parser and every file
system with the same file-existence pattern, so no file is opened for
reading — existence of all expected files is checked up front. -/
theorem load_samples_n_missing_file {α : Type} (pyFloat : String → Option α)
    (fs : FS) (filename : String) (n : Int) (hn : 1 ≤ n)
    (hmiss : ∃ i < n.toNat, isfile fs
      ((splitext filename).1 ++ "_" ++ pyStr i ++ (splitext filename).2)
        = false) :
    ∃ fn, isfile fs fn = false ∧
      (∃ i < n.toNat,
        fn = (splitext filename).1 ++ "_" ++ pyStr i ++ (splitext filename).2) ∧
      load_samples_n pyFloat fs filename n = .error ("File not found: " ++ fn) ∧
      ∀ (pyFloat' : String → Option α) (fs' : FS),
        (∀ name, isfile fs' name = isfile fs name) →
        load_samples_n pyFloat' fs' filename n =
          .error ("File not found: " ++ fn) := by
  have hn' : ¬ n < 1 := by omega
  obtain ⟨i, hi, hmem⟩ := hmiss
  have hsome : (((List.range n.toNat).map fun j =>
      (splitext filename).1 ++ "_" ++ pyStr j ++ (splitext filename).2).find?
        (fun fn => !(isfile fs fn))).isSome := by
    rw [List.find?_isSome]
    exact ⟨_, List.mem_map_of_mem _ (List.mem_range.mpr hi), by simp [hmem]⟩
  obtain ⟨fn, hfn⟩ := Option.isSome_iff_exists.mp hsome
  have hmemfn := List.mem_of_find?_eq_some hfn
  simp only [List.mem_map, List.mem_range] at hmemfn
  obtain ⟨j, hj, hjfn⟩ := hmemfn
  have hnot := List.find?_some hfn
  simp only [Bool.not_eq_true'] at hnot
  refine ⟨fn, hnot, ⟨j, hj, hjfn.symm⟩, ?_, ?_⟩
  · simp only [load_samples_n]
    rw [if_neg hn', hfn]
  · intro pyFloat' fs' hiso
    simp only [load_samples_n]
    rw [if_neg hn',
      find?_ext (fun b => by rw [hiso b]) _, hfn]

/-- Evaluation of `load_samples_n_missing_file` with `n = 2` on a file
system holding only the first of the two expected files. -/
theorem load_samples_n_missing_file_witness :
    ∃ fn, isfile [("test_0.csv", "x\n1\n")] fn = false ∧
      (∃ i < (2 : Int).toNat,
        fn = (splitext "test.csv").1 ++ "_" ++ pyStr i ++
          (splitext "test.csv").2) ∧
      load_samples_n parseNatTest [("test_0.csv", "x\n1\n")] "test.csv" 2 =
        .error ("File not found: " ++ fn) ∧
      ∀ (pyFloat' : String → Option Nat) (fs' : FS),
        (∀ name, isfile fs' name = isfile [("test_0.csv", "x\n1\n")] name) →
        load_samples_n pyFloat' fs' "test.csv" 2 =
          .error ("File not found: " ++ fn) :=
  load_samples_n_missing_file parseNatTest [("test_0.csv", "x\n1\n")]
    "test.csv" 2 (by decide) ⟨1, by decide, by decide⟩

theorem zip_map_swap {β γ δ : Type} (f : β → δ) (l : List β) (names : List γ) :
    (l.zip names).map (fun sf => (sf.2, f sf.1)) = names.zip (l.map f) := by
  induction l generalizing names with
  | nil => simp
  | cons x xs ih =>
    cases names with
    | nil => simp
    | cons nm nms => simp [ih]

/-- Claim C9: a successful `save_samples` call on `k ≥ 1` sample sets of
shape `(m, d)` writes exactly the files named by `savedFilenames` — the
base filename itself for `k = 1`, and the base filename with suffixes `_0`
through `_(k-1)` for `k ≥ 2` — pairing the `i`-th name with the contents of
the `i`-th set; each written file consists of exactly one header line
holding the comma-separated quoted labels `"p0",...,"p(d-1)"`, followed by
exactly `m` lines, the `i`-th holding the `d` formatted values of the
`i`-th sample joined by commas, every line terminated by a newline (the
trailing `""` piece of the newline-split witnesses the final newline). -/
theorem save_samples_written_format {α : Type} (fmt : α → String)
    (filename : String) (sampleLists : List (List (List α))) (fs : FS)
    (m d : Nat) (hk : 1 ≤ sampleLists.length)
    (hshape : ∀ s ∈ sampleLists, npShape s = [m, d])
    (hfmt : ∀ s ∈ sampleLists, ∀ row ∈ s, ∀ x ∈ row, '\n' ∉ (fmt x).data) :
    save_samples fmt filename sampleLists fs =
        (((savedFilenames filename sampleLists.length).zip
            (sampleLists.map (fileContent fmt d))).reverse ++ fs, none) ∧
      savedFilenames filename 1 = [filename] ∧
      (2 ≤ sampleLists.length →
        savedFilenames filename sampleLists.length =
          (List.range sampleLists.length).map fun i =>
            (splitext filename).1 ++ "_" ++ pyStr i ++ (splitext filename).2) ∧
      ∀ s ∈ sampleLists,
        s.length = m ∧
        (∀ row ∈ s, row.length = d) ∧
        pySplit '\n' (fileContent fmt d s) =
          joinSep "," ((List.range d).map fun j => "\"p" ++ pyStr j ++ "\"") ::
            (s.map fun row => joinSep "," (row.map fmt)) ++ [""] := by
  refine ⟨?_, rfl, ?_, ?_⟩
  · rcases sampleLists with _ | ⟨first, rest⟩
    · simp at hk
    · have h1 : npShape first = [m, d] := hshape first (by simp)
      have hany : rest.any (fun samples => npShape samples != npShape first)
          = false := by
        simp only [List.any_eq_false, bne_iff_ne, ne_eq, not_not]
        intro s hs
        rw [hshape s (List.mem_cons_of_mem _ hs), h1]
      simp only [save_samples]
      rw [if_neg (by simp [h1]), if_neg (by simp [hany]), h1]
      simp only [List.getD_cons_succ, List.getD_cons_zero]
      rw [foldl_writeFile (fileContent fmt d), zip_map_swap]
      rfl
  · intro h2
    rw [savedFilenames, if_neg (by omega)]
  · intro s hs
    obtain ⟨hm, hne, hrows⟩ := npShape_eq_two (hshape s hs)
    refine ⟨hm, hrows, ?_⟩
    unfold pySplit fileContent
    rw [show (String.mk (fileContentC fmt d s)).data
          = fileContentC fmt d s from rfl]
    unfold fileContentC
    rw [show (s.map fun sample => rowC fmt sample ++ ['\n'])
          = (s.map (rowC fmt)).map (fun r => r ++ ['\n']) by
        rw [List.map_map]; rfl,
      splitChar_terminated (not_mem_headerC d)
        (by
          intro r hr
          simp only [List.mem_map] at hr
          obtain ⟨row, hrowmem, hrow⟩ := hr
          exact hrow ▸ not_mem_rowC
            (fun x hx => hfmt s hs row hrowmem x hx) (by decide))]
    have hhead : (⟨headerC d⟩ : String) =
        joinSep "," ((List.range d).map fun j => "\"p" ++ pyStr j ++ "\"") := by
      unfold joinSep
      refine congrArg String.mk ?_
      unfold headerC
      rw [List.map_map]
      refine congrArg (joinSepC [',']) ?_
      exact List.map_congr_left fun j _ => rfl
    have hrowS : ∀ row : List α,
        (⟨rowC fmt row⟩ : String) = joinSep "," (row.map fmt) := by
      intro row
      unfold joinSep
      refine congrArg String.mk ?_
      unfold rowC
      rw [List.map_map]
      rfl
    have hmap : List.map (fun l => (⟨l⟩ : String)) (List.map (rowC fmt) s)
        = s.map fun row => joinSep "," (row.map fmt) := by
      rw [List.map_map]
      exact List.map_congr_left fun row _ => hrowS row
    simp only [List.map_cons, List.map_append]
    rw [hhead, hmap]
    rfl

/-- Evaluation of `save_samples_written_format` on two sets of one
one-dimensional sample each. -/
theorem save_samples_written_format_witness :
    save_samples pyStr "test.csv" [[[7]], [[8]]] [] =
        (((savedFilenames "test.csv" ([[[7]], [[8]]] :
              List (List (List Nat))).length).zip
            ([[[7]], [[8]]].map (fileContent pyStr 1))).reverse ++ [], none) ∧
      savedFilenames "test.csv" 1 = ["test.csv"] ∧
      (2 ≤ ([[[7]], [[8]]] : List (List (List Nat))).length →
        savedFilenames "test.csv" ([[[7]], [[8]]] :
            List (List (List Nat))).length =
          (List.range ([[[7]], [[8]]] :
              List (List (List Nat))).length).map fun i =>
            (splitext "test.csv").1 ++ "_" ++ pyStr i ++
              (splitext "test.csv").2) ∧
      ∀ s ∈ ([[[7]], [[8]]] : List (List (List Nat))),
        s.length = 1 ∧
        (∀ row ∈ s, row.length = 1) ∧
        pySplit '\n' (fileContent pyStr 1 s) =
          joinSep "," ((List.range 1).map fun j => "\"p" ++ pyStr j ++ "\"") ::
            (s.map fun row => joinSep "," (row.map pyStr)) ++ [""] :=
  save_samples_written_format pyStr "test.csv" [[[7]], [[8]]] [] 1 1
    (by decide) (by decide) (by decide)

/-! ### Claim theorems: ask-tell protocol and rejection sampler
(modelled from the spec) -/

/-- Claim C1: for a rejection sampler with a pending batch of one candidate
`x`, `tell v` succeeds, clears the pending batch (the sampler returns to the
awaiting-ask phase with its threshold unchanged), and returns the drawn
parameter vector exactly when `v ≤ threshold` and nothing exactly when
`v > threshold`. -/
theorem rejection_tell_single (s : RejectionABC) (x : List Rat) (v : Rat)
    (h : s.pending = some [x]) :
    ∃ r s', s.tell v = .ok (r, s') ∧
      s'.pending = none ∧ s'.phase = .awaitingAsk ∧
      s'.threshold = s.threshold ∧
      (r = some x ↔ v ≤ s.threshold) ∧
      (r = none ↔ s.threshold < v) := by
  simp only [RejectionABC.tell, RejectionABC.phase, h, Option.isSome_some,
    if_true, tellTransition]
  refine ⟨_, _, rfl, rfl, rfl, rfl, ?_, ?_⟩
  · by_cases hv : v ≤ s.threshold
    · simp [hv]
    · simp [hv]
  · by_cases hv : v ≤ s.threshold
    · simp [hv, not_lt.mpr hv]
    · simp [hv, not_le.mp hv]

/-- Evaluation of `rejection_tell_single` on a fresh sampler holding the
single pending draw `[0]`, told the value `1` (equal to the default
threshold, hence accepted). -/
theorem rejection_tell_single_witness :
    ∃ r s', (⟨1, some [[(0 : Rat)]]⟩ : RejectionABC).tell 1 = .ok (r, s') ∧
      s'.pending = none ∧ s'.phase = .awaitingAsk ∧
      s'.threshold = (⟨1, some [[(0 : Rat)]]⟩ : RejectionABC).threshold ∧
      (r = some [(0 : Rat)] ↔ (1 : Rat) ≤
        (⟨1, some [[(0 : Rat)]]⟩ : RejectionABC).threshold) ∧
      (r = none ↔ (⟨1, some [[(0 : Rat)]]⟩ : RejectionABC).threshold < 1) :=
  rejection_tell_single ⟨1, some [[(0 : Rat)]]⟩ [(0 : Rat)] 1 rfl

/-- Claim C2: after any successful `ask`, a second `ask` without an
intervening `tell` fails with the ordering error — the same fixed
`RuntimeError` regardless of the state, the requested batch size or the
prior, because it is raised by the shared phase transition of the ask-tell
protocol. -/
theorem ask_twice_without_tell_errors (s : RejectionABC) (n : Nat)
    (prior : Nat → List Rat) (out : List (List Rat)) (s₁ : RejectionABC)
    (h : s.ask n prior = .ok (out, s₁)) (n₂ : Nat) (prior₂ : Nat → List Rat) :
    s₁.ask n₂ prior₂ = .error askOrderError := by
  cases hp : s.pending with
  | some b =>
    exfalso
    simp [RejectionABC.ask, RejectionABC.phase, hp, askTransition] at h
  | none =>
    simp only [RejectionABC.ask, RejectionABC.phase, hp, Option.isSome_none,
      Bool.false_eq_true, if_false, askTransition, Except.ok.injEq,
      Prod.mk.injEq] at h
    obtain ⟨h1, h2⟩ := h
    rw [← h2]
    simp [RejectionABC.ask, RejectionABC.phase, askTransition]

/-- Evaluation of `ask_twice_without_tell_errors`: a fresh sampler is asked
once successfully, and the second consecutive `ask` fails. -/
theorem ask_twice_without_tell_errors_witness :
    (⟨1, some [[(0 : Rat)]]⟩ : RejectionABC).ask 1 (fun _ => [(0 : Rat)]) =
      .error askOrderError :=
  ask_twice_without_tell_errors RejectionABC.init 1 (fun _ => [(0 : Rat)])
    [[(0 : Rat)]] ⟨1, some [[(0 : Rat)]]⟩ rfl 1 (fun _ => [(0 : Rat)])

/-- Claim C3: `tell` called while no batch is pending — in particular on a
freshly constructed sampler, before any `ask` — always fails with the
ordering error, for every told value. -/
theorem tell_before_ask_errors (s : RejectionABC) (v : Rat)
    (h : s.pending = none) : s.tell v = .error tellOrderError := by
  simp [RejectionABC.tell, RejectionABC.phase, h, tellTransition]

/-- Evaluation of `tell_before_ask_errors` on a freshly constructed sampler
(which by construction has no pending batch). -/
theorem tell_before_ask_errors_witness :
    RejectionABC.init.tell (5 / 2) = .error tellOrderError :=
  tell_before_ask_errors RejectionABC.init (5 / 2) rfl

/-- Claim C4: `set_threshold t` fails with the validation error for every
`t ≤ 0` — producing no new state, so the threshold observable afterwards is
the unchanged one — and succeeds for every `t > 0`, after which the
observable threshold is `t` (with the pending batch untouched). -/
theorem set_threshold_validation (s : RejectionABC) (t : Rat) :
    (t ≤ 0 → s.set_threshold t = .error thresholdError) ∧
    (0 < t → ∃ s', s.set_threshold t = .ok s' ∧ s'.threshold = t ∧
      s'.pending = s.pending) := by
  constructor
  · intro h
    simp [RejectionABC.set_threshold, h]
  · intro h
    refine ⟨⟨t, s.pending⟩, ?_, rfl, rfl⟩
    simp [RejectionABC.set_threshold, not_le.mpr h]

/-- Evaluation of `set_threshold_validation` on a fresh sampler at the
rejected value `-3` and the accepted value `2`. -/
theorem set_threshold_validation_witness :
    RejectionABC.init.set_threshold (-3) = .error thresholdError ∧
    ∃ s', RejectionABC.init.set_threshold 2 = .ok s' ∧ s'.threshold = 2 ∧
      s'.pending = RejectionABC.init.pending :=
  ⟨(set_threshold_validation RejectionABC.init (-3)).1 (by norm_num),
    (set_threshold_validation RejectionABC.init 2).2 (by norm_num)⟩
